import Mathlib

/-!
Verification of the transcription-orchestration backend (repostr).

This file shallowly embeds the algorithmic core of the repository:

* `AudioProcessor.merge_transcriptions`, `AudioProcessor.split_audio_into_chunks`,
  `AudioProcessor.prepare_file_for_transcription` and `AudioProcessor.validate_file`
  from `backend/app/services/transcription/audio_utils.py`;
* `TranscriptionManager.transcribe` and `TranscriptionManager._check_rate_limit`
  from `backend/app/services/transcription/manager.py`;
* the anonymous-session status writes of
  `BackgroundTaskService.process_anonymous_transcription`
  (`backend/app/services/background_tasks.py`) and
  `AnonymousService._create_session_record`
  (`backend/app/services/anonymous_service.py`).

Python floats (durations, timestamps, sizes in MB) are modelled by `ℚ`;
Python ints by `ℤ` or `ℕ`.  Python dicts that carry transcription results
are modelled by a structure whose optional fields stand for optional keys.
Effects of external services (ffmpeg, the Groq API, Supabase) are passed in
as explicit oracle parameters.
-/

namespace Repostr

/-! ### Python string splitting

`str.split()` with no argument splits on runs of whitespace and drops the
empty pieces; `" ".join(l)` is `String.intercalate " " l`. -/

/-- Character-list worker for `pySplit`: `acc` holds the reversed
characters of the word currently being read. -/
def splitWsAux : List Char → List Char → List String
  | [], acc => if acc = [] then [] else [String.mk acc.reverse]
  | c :: cs, acc =>
    if c.isWhitespace then
      if acc = [] then splitWsAux cs []
      else String.mk acc.reverse :: splitWsAux cs []
    else splitWsAux cs (c :: acc)

/-- Model of Python `s.split()` (no separator argument): split at runs of
whitespace characters, dropping the empty fragments that leading, trailing
or repeated whitespace would produce. -/
def pySplit (s : String) : List String := splitWsAux s.toList []

/-- Model of Python `" ".join(l)`. -/
def pyJoin (l : List String) : String :=
  String.intercalate " " l

/-- Model of Python `lst[-n:]`: the last `min n (length lst)` elements. -/
def pyLastN {α : Type} (n : ℕ) (l : List α) : List α :=
  l.drop (l.length - n)

/-! ### Data model of transcription-result dicts

A transcription result (one per chunk, as produced by
`GroqTranscriptionService.transcribe_file`) is a dict.
`merge_transcriptions` reads the keys `text`, `segments`, `duration`,
`provider`, `model`, `language`; chunks additionally carry `word_count`.
A segment dict is read and written only at its `start` and `end` keys
(`end` is a Lean keyword, embedded here as `stop`); its other keys are
untouched by the merge and therefore omitted. -/

/-- A timestamped segment of a transcription result: the `start` and `end`
keys of the Python segment dict (`end` is rendered `stop`). -/
structure Segment where
  start : ℚ
  stop : ℚ
deriving DecidableEq, Repr

/-- A per-chunk transcription result dict.  `text` models
`chunk.get("text", "")` (a missing `text` key and `""` are observationally
equal in the merge); the other optional fields model the presence/absence of
the corresponding keys. -/
structure Chunk where
  text : String
  segments : Option (List Segment)
  duration : Option ℚ
  provider : Option String
  model : Option String
  language : Option String
  word_count : Option ℕ
deriving DecidableEq, Repr

/-- The merged result dict built at the end of `merge_transcriptions` for a
multi-chunk input (lines 259-272 of `audio_utils.py`). -/
structure MergedResult where
  text : String
  provider : String
  model : Option String
  language : Option String
  duration : ℚ
  chunks_processed : ℕ
  segments : Option (List Segment)
  word_count : ℕ
deriving DecidableEq, Repr

/-- Result type: `merge_transcriptions` returns either the lone input chunk dict
unmodified (`Sum.inl`) or a freshly built merged dict (`Sum.inr`). -/
def MergeOut : Type := Chunk ⊕ MergedResult

/-! ### The merge loop of `AudioProcessor.merge_transcriptions` -/

/-- The overlap-deduplication step applied to the text of chunk `i`
(lines 231-241 of `audio_utils.py`): for `i > 0` with a positive overlap,
if the chunk has more than 10 words and its first 5 words equal the last 5
of the last 10 words of the previously accumulated text, drop its first 5
words. -/
def dedupText (overlap_seconds : ℤ) (i : ℕ) (mergedText : List String)
    (text : String) : String :=
  if 0 < i ∧ 0 < overlap_seconds then
    let words := pySplit text
    if 10 < words.length then
      let prevWords : List String :=
        match mergedText.getLast? with
        | some prev => pyLastN 10 (pySplit prev)
        | none => []
      if prevWords ≠ [] ∧ words.take 5 = pyLastN 5 prevWords then
        pyJoin (words.drop 5)
      else text
    else text
  else text

/-- Loop state of the `for i, chunk in enumerate(transcription_chunks)` loop:
the accumulated `merged_text` list, the accumulated `merged_segments` list
and the running `total_duration`. -/
structure MergeState where
  mergedText : List String
  mergedSegs : List Segment
  totalDur : ℚ

/-- Timestamp rebasing (lines 247-252 of `audio_utils.py`): segments of a
chunk with index `i > 0` are shifted by the running total duration. -/
def offsetSegs (i : ℕ) (d : ℚ) (segs : List Segment) : List Segment :=
  if 0 < i then segs.map (fun s => ⟨s.start + d, s.stop + d⟩) else segs

/-- One iteration of the merge loop body (lines 227-256 of
`audio_utils.py`) for the chunk with index `i`. -/
def mergeBody (overlap_seconds : ℤ) (i : ℕ) (st : MergeState) (chunk : Chunk) :
    MergeState :=
  let text := dedupText overlap_seconds i st.mergedText chunk.text
  let segs :=
    match chunk.segments with
    | some ss => st.mergedSegs ++ offsetSegs i st.totalDur ss
    | none => st.mergedSegs
  let dur :=
    match chunk.duration with
    | some d => st.totalDur + d
    | none => st.totalDur
  ⟨st.mergedText ++ [text], segs, dur⟩

/-- The whole merge loop, indexed like Python's `enumerate`. -/
def mergeLoop (overlap_seconds : ℤ) : ℕ → MergeState → List Chunk → MergeState
  | _, st, [] => st
  | i, st, c :: cs => mergeLoop overlap_seconds (i + 1) (mergeBody overlap_seconds i st c) cs

/-- Model of `AudioProcessor.merge_transcriptions` (lines 199-280 of
`audio_utils.py`).  An empty input raises `ValueError` (`Except.error`); a
singleton input is returned unmodified; otherwise the loop runs and the
merged result dict is assembled, with `word_count` recomputed from the
final merged text. -/
def merge_transcriptions (overlap_seconds : ℤ) (transcription_chunks : List Chunk) :
    Except String MergeOut :=
  match transcription_chunks with
  | [] => .error "No transcription chunks to merge"
  | [c] => .ok (.inl c)
  | c :: cs =>
    let st := mergeLoop overlap_seconds 0 ⟨[], [], 0⟩ (c :: cs)
    let text := pyJoin st.mergedText
    .ok (.inr
      { text := text
        provider := c.provider.getD "groq"
        model := c.model
        language := c.language
        duration := st.totalDur
        chunks_processed := (c :: cs).length
        segments := if st.mergedSegs = [] then none else some st.mergedSegs
        word_count := (pySplit text).length })

/-- The `duration` key of a merge output: for a passed-through singleton it
is the chunk's own (optional) `duration` key, for a built merged dict the
computed total. -/
def mergedDuration : MergeOut → Option ℚ
  | .inl c => c.duration
  | .inr r => some r.duration

/-- The `segments` key of a merge output, `[]` when absent. -/
def mergedSegments : MergeOut → List Segment
  | .inl c => c.segments.getD []
  | .inr r => r.segments.getD []

/-! ### Segment ordering predicates (for the merged-timestamps invariant) -/

/-- Pointwise order on segments: both the start and the end timestamp are
non-decreasing. -/
def segLe (a b : Segment) : Prop := a.start ≤ b.start ∧ a.stop ≤ b.stop

instance : DecidableRel segLe := fun a b =>
  decidable_of_iff (a.start ≤ b.start ∧ a.stop ≤ b.stop) Iff.rfl

/-- A segment list has monotonically non-decreasing start/end timestamps. -/
def segsMono (l : List Segment) : Prop := l.Chain' segLe

/-- Executable check for `segsMono`. -/
def segsMonoB : List Segment → Bool
  | [] => true
  | [_] => true
  | a :: b :: rest =>
    (decide (a.start ≤ b.start) && decide (a.stop ≤ b.stop)) && segsMonoB (b :: rest)

lemma segsMonoB_iff : ∀ l : List Segment, segsMonoB l = true ↔ segsMono l
  | [] => by simp [segsMonoB, segsMono]
  | [a] => by simp [segsMonoB, segsMono]
  | a :: b :: rest => by
    rw [segsMonoB, segsMono, List.chain'_cons, ← segsMono,
      ← segsMonoB_iff (b :: rest)]
    simp [segLe, and_assoc]

instance (l : List Segment) : Decidable (segsMono l) :=
  decidable_of_iff (segsMonoB l = true) (segsMonoB_iff l)

/-- All timestamps of the segments lie within `[0, d]`. -/
def segsInRange (d : ℚ) (l : List Segment) : Prop :=
  ∀ s ∈ l, 0 ≤ s.start ∧ s.start ≤ d ∧ 0 ≤ s.stop ∧ s.stop ≤ d

instance (d : ℚ) (l : List Segment) : Decidable (segsInRange d l) :=
  decidable_of_iff (∀ s ∈ l, 0 ≤ s.start ∧ s.start ≤ d ∧ 0 ≤ s.stop ∧ s.stop ≤ d)
    Iff.rfl

/-- The per-chunk hypothesis of the merged-timestamps claim: the chunk
carries a `duration` key and its segments (if any) are monotone and lie
within `[0, duration]`. -/
def chunkSegsOK (c : Chunk) : Prop :=
  ∃ d, c.duration = some d ∧
    segsMono (c.segments.getD []) ∧ segsInRange d (c.segments.getD [])

/-- Predicate `chunkSegsOK` strengthened with a non-negative duration. -/
def chunkSegsOKNonneg (c : Chunk) : Prop :=
  ∃ d, c.duration = some d ∧ 0 ≤ d ∧
    segsMono (c.segments.getD []) ∧ segsInRange d (c.segments.getD [])

/-- Invariant carried through the merge loop: the accumulated segments are
monotone and all their timestamps are at most the running total duration. -/
def stInv (st : MergeState) : Prop :=
  segsMono st.mergedSegs ∧
    ∀ s ∈ st.mergedSegs, s.start ≤ st.totalDur ∧ s.stop ≤ st.totalDur

/-! ### `TranscriptionManager._check_rate_limit` (manager.py lines 236-258)

The method prunes `self.request_times` to the timestamps newer than
`current_time - rate_limit_window` and raises when at least
`rate_limit_requests` remain, with a wait time computed from the first
retained timestamp.  Datetimes are modelled by their `timestamp()` value
in seconds (`ℚ`).  The result is the new `self.request_times` plus
`some wait_time` for the raised exception, `none` for a silent return. -/

/-- Model of `TranscriptionManager._check_rate_limit`.  Here `rate_limit_requests = 0`
models a falsy `self.rate_limit_requests` (rate limiting disabled). -/
def check_rate_limit (rate_limit_requests : ℕ) (rate_limit_window : ℚ)
    (current_time : ℚ) (request_times : List ℚ) : List ℚ × Option ℚ :=
  if rate_limit_requests = 0 then (request_times, none)
  else
    let window_start := current_time - rate_limit_window
    let kept := request_times.filter (fun t => window_start < t)
    if rate_limit_requests ≤ kept.length then
      (kept, some (rate_limit_window - (current_time - kept.headI)))
    else (kept, none)

/-! ### `AudioProcessor.prepare_file_for_transcription` (audio_utils.py 297-343)

The outcomes of ffmpeg are passed as oracle data: `info` is what
`get_audio_info` reports for the input file and `compressed_size_mb` is
the size `get_audio_info` reports for the output of `compress_audio`
(only consulted on the compression path). -/

/-- The fields of the `get_audio_info` dict that
`prepare_file_for_transcription` reads. -/
structure AudioInfo where
  bitrate : ℤ
  size_mb : ℚ
deriving DecidableEq, Repr

/-- Which files `prepare_file_for_transcription` returns, and whether they
still have to be merged. -/
inductive PrepOutcome
  /-- Outcome `([input_path], False)`: the input file, as-is. -/
  | asIs
  /-- Outcome `([compressed_path], False)`: the compressed file alone. -/
  | compressedOnly
  /-- Outcome `(chunks of compressed_path, True)`. -/
  | chunkCompressed
  /-- Outcome `(chunks of input_path, True)`. -/
  | chunkOriginal
deriving DecidableEq, Repr

/-- The `needs_merging` flag returned with each outcome. -/
def needs_merging : PrepOutcome → Bool
  | .asIs => false
  | .compressedOnly => false
  | .chunkCompressed => true
  | .chunkOriginal => true

/-- Model of `AudioProcessor.prepare_file_for_transcription`. -/
def prepare_file_for_transcription (max_file_size_mb : ℚ) (info : AudioInfo)
    (compressed_size_mb : ℚ) : PrepOutcome :=
  if info.size_mb ≤ max_file_size_mb then .asIs
  else if 64000 < info.bitrate then
    if compressed_size_mb ≤ max_file_size_mb then .compressedOnly
    else .chunkCompressed
  else .chunkOriginal

/-- Default of `Settings.AUDIO_CHUNK_DURATION_SECONDS` (config.py line 60). -/
def AUDIO_CHUNK_DURATION_SECONDS : ℤ := 600

/-- The `overlap_seconds` default of `split_audio_into_chunks`
(audio_utils.py line 136). -/
def split_overlap_seconds_default : ℤ := 5

/-- The chunk duration `split_audio_into_chunks` resolves from its
`chunk_duration_seconds` argument (`None` falls back to
`self.max_chunk_duration_seconds`, i.e. the settings default). -/
def resolved_chunk_duration (chunk_duration_seconds : Option ℤ) : ℤ :=
  chunk_duration_seconds.getD AUDIO_CHUNK_DURATION_SECONDS

/-! ### The chunking loop of `split_audio_into_chunks` (audio_utils.py 163-191)

`len(audio)` is the audio length in milliseconds.  The loop body only
uses `start` to decide the next iteration; `chunkStep` is the update of
`start` performed by one iteration with the loop guard `start < len`. -/

/-- One iteration of the `while start < len(audio)` loop: `end` is
`min(start + chunk_duration_ms, len(audio))`; the new `start` is
`end - overlap_ms` when a further chunk follows, `end` otherwise. -/
def chunkStep (lenMs chunk_duration_ms overlap_ms : ℤ) (start : ℤ) : ℤ :=
  let e := min (start + chunk_duration_ms) lenMs
  if e < lenMs then e - overlap_ms else e

/-! ### `TranscriptionManager.transcribe` (manager.py lines 66-167)

The try block validates the file, assigns the local `selected_provider`,
checks availability and rate limits and then transcribes; any exception
reaches the handler of line 154, which reads `selected_provider`.  The
model makes the binding state of that local explicit: the handler's read
of a never-assigned local raises Python's `UnboundLocalError` instead of
re-raising the original exception.  Everything after provider selection
(rate limiting, ffmpeg, chunked or single transcription) is abstracted
into the oracle `body`, giving the try-block outcome per provider. -/

/-- Model of `TranscriptionProvider` (manager.py lines 26-29). -/
inductive TranscriptionProvider
  | groq
  | openai
deriving DecidableEq, Repr

/-- The file facts that `AudioProcessor.validate_file` consults. -/
structure FileState where
  path : String
  fileExists : Bool
  ext : String
  size_mb : ℚ
deriving DecidableEq, Repr

/-- Model of `AudioProcessor.supported_formats` (audio_utils.py line 27). -/
def supported_formats : List String :=
  [".mp3", ".wav", ".m4a", ".mp4", ".mpeg", ".mpga", ".webm", ".ogg"]

/-- Model of `AudioProcessor.validate_file` (audio_utils.py lines 54-82): raises
`ValueError` for a missing file or unsupported extension, returns `False`
for an oversized file and `True` otherwise. -/
def validate_file (max_file_size_mb : ℚ) (f : FileState) : Except String Bool :=
  if f.fileExists = false then .error ("File not found: " ++ f.path)
  else if f.ext ∉ supported_formats then .error ("Unsupported file format: " ++ f.ext)
  else if max_file_size_mb < f.size_mb then .ok false
  else .ok true

/-- The manager state and oracles that `transcribe` consults. -/
structure TranscribeEnv (R : Type) where
  file : FileState
  max_file_size_mb : ℚ
  /-- keys of `self.providers`. -/
  providers : List TranscriptionProvider
  /-- Value of `self.primary_provider`. -/
  primary_provider : TranscriptionProvider
  /-- Outcome of the rest of the try block (rate limiting, file
  preparation, `_process_chunks` / `_transcribe_single`) for a given
  selected provider. -/
  body : TranscriptionProvider → Except String R

/-- An observable Python outcome: normal return, a raised exception, or an
`UnboundLocalError` raised while reading the named unassigned local. -/
inductive PyOutcome (R : Type)
  | ok (r : R)
  | raised (msg : String)
  | unboundLocal (name : String)
deriving DecidableEq, Repr

/-- Rank used for the termination of the fallback recursion: the
recursive call always passes `some openai` and never recurses again. -/
def provRank : Option TranscriptionProvider → ℕ
  | some TranscriptionProvider.openai => 0
  | _ => 1

/-- Model of `TranscriptionManager.transcribe`.  Returns the sequence of providers
for which an attempt was started (the values taken by the local
`selected_provider` across the recursive fallback calls of line 160)
together with the outcome the caller observes. -/
def transcribe {R : Type} (env : TranscribeEnv R)
    (provider : Option TranscriptionProvider) :
    List TranscriptionProvider × PyOutcome R :=
  match validate_file env.max_file_size_mb env.file with
  | .error _ => ([], .unboundLocal "selected_provider")
  | .ok _ =>
    let selected_provider := provider.getD env.primary_provider
    match (if selected_provider ∈ env.providers
           then env.body selected_provider
           else .error "Provider not available" : Except String R) with
    | .ok r => ([selected_provider], .ok r)
    | .error e =>
      if h : selected_provider = .groq ∧ TranscriptionProvider.openai ∈ env.providers then
        have : provRank (some TranscriptionProvider.openai) < provRank provider := by
          have hne : provider ≠ some TranscriptionProvider.openai := by
            intro hp
            have h1 : provider.getD env.primary_provider = TranscriptionProvider.groq := h.1
            rw [hp] at h1
            simp only [Option.getD_some] at h1
            exact absurd h1 (by decide)
          rcases provider with _ | p
          · simp [provRank]
          · cases p
            · simp [provRank]
            · exact absurd rfl hne
        let rest := transcribe env (some .openai)
        (selected_provider :: rest.1, rest.2)
      else ([selected_provider], .raised e)
termination_by provRank provider

/-! ### Anonymous-session status writes

`AnonymousService._create_session_record` inserts a session with status
`uploaded`.  `BackgroundTaskService.process_anonymous_transcription`
updates the session to `processing` and then to `completed` on success;
any exception in its try block reaches the handler of
background_tasks.py 245-270, which (re-)resolves the session id and, when
one is known, writes `failed`.  The `claimed` status is written only by
the `claim_anonymous_session` database function, which is not part of the
repository's Python sources and is modelled from the spec.

Every Supabase call in the flow can itself raise, so each one is an
oracle: the session select and the handler's re-select return an error
(the call raised) or whether the row was found; each status-update
`.execute()` either succeeds or raises, and a raised update is taken not
to have written (`false` = the call raised before taking effect).  The
transcription call and the transcription-row insert are oracles as
before. -/

/-- Model of `AnonymousSessionStatus` (models/anonymous.py lines 12-18). -/
inductive SessionStatus
  | uploaded
  | processing
  | completed
  | failed
  | claimed
deriving DecidableEq, Repr

/-- The status transitions the spec allows:
`uploaded → processing → {completed, failed}` and
`completed → claimed`. -/
def allowedTransition (a b : SessionStatus) : Prop :=
  (a = .uploaded ∧ b = .processing) ∨
  (a = .processing ∧ (b = .completed ∨ b = .failed)) ∨
  (a = .completed ∧ b = .claimed)

/-- The session status written by `AnonymousService._create_session_record`
(anonymous_service.py line 840). -/
def create_session_record_status : SessionStatus := .uploaded

/-- Outcomes of the Supabase and transcription calls made by one run of
`process_anonymous_transcription`, in program order.  For the two selects
an `Except` error means the call raised, `ok found` whether it returned
data; for each update `true` means the `.execute()` succeeded and `false`
that it raised (without the write taking effect). -/
structure SupabaseOracle where
  /-- Session select of background_tasks.py 156-158. -/
  sessionQuery : Except String Bool
  /-- Session update to `processing`, lines 167-170. -/
  processingUpdateOk : Bool
  /-- Projects-table update to `processing`, lines 172-176. -/
  projectProcessingUpdateOk : Bool
  /-- Outcome of `transcribe_from_supabase`, lines 179-183. -/
  transcribeOutcome : Except String Unit
  /-- Transcription-row insert, lines 204-206: raised, or whether
  `response.data` was non-empty. -/
  insertOutcome : Except String Bool
  /-- Session update to `completed`, lines 215-219. -/
  completedUpdateOk : Bool
  /-- Projects-table update to `completed`, lines 222-226. -/
  projectCompletedUpdateOk : Bool
  /-- Handler re-select of lines 248-255 (run when `session_id` is not in
  `locals()`). -/
  handlerRequery : Except String Bool
  /-- Handler session update to `failed`, lines 257-261. -/
  failedUpdateOk : Bool

/-- Session-status writes of the exception handler
(background_tasks.py 245-270): when `session_id` is not yet a local it is
re-resolved by a second select (whose own raise aborts the handler via the
inner `except`); with a known session id the handler writes `failed`,
which takes effect only if that update call does not itself raise. -/
def handlerWrites (sessionIdKnown : Bool) (o : SupabaseOracle) :
    List SessionStatus :=
  let known :=
    if sessionIdKnown then true
    else
      match o.handlerRequery with
      | .error _ => false
      | .ok found => found
  if known = true ∧ o.failedUpdateOk = true then [.failed] else []

/-- The sequence of session-status writes that take effect during one run
of `BackgroundTaskService.process_anonymous_transcription`
(background_tasks.py lines 155-276), in order.  The try block raises to
the handler at the first failing step: a raised or empty session select
(before `session_id` is assigned), a raised `processing` update, a raised
project update, a failed transcription, a raised or empty transcription
insert, a raised `completed` update, or a raised project completion
update (after the session was already set to `completed`). -/
def process_anonymous_transcription_writes (o : SupabaseOracle) :
    List SessionStatus :=
  match o.sessionQuery with
  | .error _ => handlerWrites false o
  | .ok false => handlerWrites false o
  | .ok true =>
    if o.processingUpdateOk = false then handlerWrites true o
    else
      .processing ::
        (if o.projectProcessingUpdateOk = false then handlerWrites true o
         else
           match o.transcribeOutcome with
           | .error _ => handlerWrites true o
           | .ok _ =>
             match o.insertOutcome with
             | .error _ => handlerWrites true o
             | .ok false => handlerWrites true o
             | .ok true =>
               if o.completedUpdateOk = false then handlerWrites true o
               else
                 .completed ::
                   (if o.projectCompletedUpdateOk = false then
                      handlerWrites true o
                    else []))

/-- Modelled from the spec: the `claim_anonymous_session` database
function (called from `AnonymousService._claim_session_atomic`) is not in
the repository sources; per the spec it atomically claims a session, and
`claimed` is reachable only from `completed` (a session that is not
completed, is expired, or is already claimed yields an error and no
status write). -/
def claim_anonymous_session (current : SessionStatus)
    (expired alreadyClaimed : Bool) : List SessionStatus :=
  if current = .completed ∧ expired = false ∧ alreadyClaimed = false then
    [.claimed]
  else []

/-- The full status history of one anonymous session: created `uploaded`,
processed in the background, then possibly claimed. -/
def sessionTrajectory (o : SupabaseOracle) (expired alreadyClaimed : Bool) :
    List SessionStatus :=
  let writes := process_anonymous_transcription_writes o
  (create_session_record_status :: writes) ++
    claim_anonymous_session (writes.getLast?.getD create_session_record_status)
      expired alreadyClaimed

/-! ### Theorems -/

lemma mergeBody_totalDur (ov : ℤ) (i : ℕ) (st : MergeState) (c : Chunk) :
    (mergeBody ov i st c).totalDur = st.totalDur + c.duration.getD 0 := by
  cases h : c.duration <;> simp [mergeBody, h]

lemma mergeLoop_totalDur (ov : ℤ) :
    ∀ (l : List Chunk) (i : ℕ) (st : MergeState),
      (mergeLoop ov i st l).totalDur
        = st.totalDur + (l.map (fun c => c.duration.getD 0)).sum
  | [], _, _ => by simp [mergeLoop]
  | c :: cs, i, st => by
    rw [mergeLoop, mergeLoop_totalDur ov cs, mergeBody_totalDur]
    simp; ring

lemma mem_of_mem_getLast? {α : Type} {l : List α} {x : α}
    (hx : x ∈ l.getLast?) : x ∈ l := by
  obtain ⟨h, rfl⟩ := List.mem_getLast?_eq_getLast hx
  exact List.getLast_mem h

lemma segsMono_offset (d : ℚ) (l : List Segment) (h : segsMono l) :
    segsMono (l.map (fun s => (⟨s.start + d, s.stop + d⟩ : Segment))) := by
  rw [segsMono, List.chain'_map]
  exact h.imp fun a b hab => ⟨add_le_add_right hab.1 d, add_le_add_right hab.2 d⟩

lemma mergeBody_inv (ov : ℤ) (i : ℕ) (st : MergeState) (c : Chunk)
    (hi : 0 < i) (hc : chunkSegsOKNonneg c) (h : stInv st) :
    stInv (mergeBody ov i st c) := by
  obtain ⟨d, hd, hd0, hmono, hrange⟩ := hc
  cases hs : c.segments with
  | none =>
    refine ⟨by simpa [mergeBody, hs] using h.1, ?_⟩
    intro s hmem
    simp only [mergeBody, hs, hd] at hmem ⊢
    obtain ⟨h1, h2⟩ := h.2 s hmem
    exact ⟨by linarith, by linarith⟩
  | some ss =>
    rw [hs] at hmono hrange
    simp only [Option.getD_some] at hmono hrange
    constructor
    · simp only [mergeBody, hs, offsetSegs, if_pos hi]
      rw [segsMono, List.chain'_append]
      refine ⟨h.1, segsMono_offset st.totalDur ss hmono, ?_⟩
      intro x hx y hy
      have hxl : x ∈ st.mergedSegs := mem_of_mem_getLast? hx
      obtain ⟨hx1, hx2⟩ := h.2 x hxl
      have hyl := List.mem_of_mem_head? hy
      obtain ⟨s0, hs0, rfl⟩ := List.mem_map.mp hyl
      obtain ⟨hb1, _, hb3, _⟩ := hrange s0 hs0
      exact ⟨by simp; linarith, by simp; linarith⟩
    · intro s hmem
      simp only [mergeBody, hs, hd, offsetSegs, if_pos hi] at hmem ⊢
      rcases List.mem_append.mp hmem with hold | hnew
      · obtain ⟨h1, h2⟩ := h.2 s hold
        exact ⟨by linarith, by linarith⟩
      · obtain ⟨s0, hs0, rfl⟩ := List.mem_map.mp hnew
        obtain ⟨_, hb2, _, hb4⟩ := hrange s0 hs0
        exact ⟨by simp; linarith, by simp; linarith⟩

lemma mergeBody_zero_inv (ov : ℤ) (c : Chunk) (hc : chunkSegsOKNonneg c) :
    stInv (mergeBody ov 0 ⟨[], [], 0⟩ c) := by
  obtain ⟨d, hd, _, hmono, hrange⟩ := hc
  cases hs : c.segments with
  | none => exact ⟨by simp [mergeBody, hs, segsMono], by simp [mergeBody, hs]⟩
  | some ss =>
    rw [hs] at hmono hrange
    simp only [Option.getD_some] at hmono hrange
    refine ⟨by simpa [mergeBody, hs, offsetSegs] using hmono, ?_⟩
    intro s hmem
    simp only [mergeBody, hs, hd, offsetSegs] at hmem ⊢
    simp at hmem
    obtain ⟨_, hb2, _, hb4⟩ := hrange s hmem
    exact ⟨by simpa using hb2, by simpa using hb4⟩

lemma mergeLoop_inv (ov : ℤ) :
    ∀ (l : List Chunk) (i : ℕ) (st : MergeState), 0 < i →
      (∀ c ∈ l, chunkSegsOKNonneg c) → stInv st → stInv (mergeLoop ov i st l)
  | [], _, _, _, _, h => h
  | c :: cs, i, st, hi, hall, h => by
    rw [mergeLoop]
    exact mergeLoop_inv ov cs (i + 1) _ (by omega)
      (fun c' hc' => hall c' (List.mem_cons_of_mem _ hc'))
      (mergeBody_inv ov i st c hi (hall c (List.mem_cons_self c cs)) h)

/-- C6: `merge_transcriptions` on a single-element chunk list returns that
chunk dict unmodified (lines 218-220 of `audio_utils.py`). -/
theorem merge_singleton_identity (overlap_seconds : ℤ) (c : Chunk) :
    merge_transcriptions overlap_seconds [c] = .ok (.inl c) := rfl

/-- C1: for a non-empty chunk list in which every chunk carries a
`duration` key, the merge succeeds and the `duration` of its result equals
the sum of the chunks' durations. -/
theorem merge_duration_eq_sum (overlap_seconds : ℤ) (chunks : List Chunk)
    (hne : chunks ≠ [])
    (hdur : ∀ c ∈ chunks, c.duration.isSome) :
    ∃ out, merge_transcriptions overlap_seconds chunks = .ok out ∧
      mergedDuration out = some ((chunks.map (fun c => c.duration.getD 0)).sum) := by
  match chunks with
  | [] => exact absurd rfl hne
  | [c] =>
    obtain ⟨d, hd⟩ := Option.isSome_iff_exists.mp (hdur c (by simp))
    exact ⟨.inl c, rfl, by simp [mergedDuration, hd]⟩
  | a :: b :: cs =>
    refine ⟨_, rfl, ?_⟩
    simp only [mergedDuration, merge_transcriptions, Option.some.injEq]
    rw [mergeLoop_totalDur]
    simp

/-- Witness for C1 at a concrete two-chunk input. -/
theorem merge_duration_eq_sum_witness :
    ∃ out,
      merge_transcriptions 5
        [{ text := "hello there", segments := none, duration := some 10,
           provider := some "groq", model := none, language := none,
           word_count := some 2 },
         { text := "general kenobi", segments := none, duration := some 20,
           provider := some "groq", model := none, language := none,
           word_count := some 2 }] = .ok out ∧
      mergedDuration out = some 30 := by
  have h := merge_duration_eq_sum 5
    [{ text := "hello there", segments := none, duration := some 10,
       provider := some "groq", model := none, language := none,
       word_count := some 2 },
     { text := "general kenobi", segments := none, duration := some 20,
       provider := some "groq", model := none, language := none,
       word_count := some 2 }]
    (by simp) (by simp)
  norm_num at h
  exact h

/-- C2 (amended): if every chunk carries a non-negative `duration` and its
segments are monotone with all timestamps in `[0, duration]`, then the
segment list of the merge output has monotonically non-decreasing
start/end timestamps across the whole sequence. -/
theorem merge_segments_monotone (overlap_seconds : ℤ) (chunks : List Chunk)
    (hwf : ∀ c ∈ chunks, chunkSegsOKNonneg c)
    (out : MergeOut)
    (hout : merge_transcriptions overlap_seconds chunks = .ok out) :
    segsMono (mergedSegments out) := by
  match chunks with
  | [] => simp [merge_transcriptions] at hout
  | [c] =>
    obtain ⟨d, _, _, hmono, _⟩ := hwf c (by simp)
    have : out = .inl c := by
      simpa [merge_transcriptions] using hout.symm
    rw [this]
    exact hmono
  | a :: b :: cs =>
    have hinv : stInv (mergeLoop overlap_seconds 0 ⟨[], [], 0⟩ (a :: b :: cs)) := by
      rw [mergeLoop]
      exact mergeLoop_inv overlap_seconds (b :: cs) 1 _ (by omega)
        (fun c' hc' => hwf c' (List.mem_cons_of_mem _ hc'))
        (mergeBody_zero_inv overlap_seconds a (hwf a (List.mem_cons_self a _)))
    have hform :
        out = .inr
          { text := pyJoin (mergeLoop overlap_seconds 0 ⟨[], [], 0⟩ (a :: b :: cs)).mergedText
            provider := a.provider.getD "groq"
            model := a.model
            language := a.language
            duration := (mergeLoop overlap_seconds 0 ⟨[], [], 0⟩ (a :: b :: cs)).totalDur
            chunks_processed := (a :: b :: cs).length
            segments :=
              if (mergeLoop overlap_seconds 0 ⟨[], [], 0⟩ (a :: b :: cs)).mergedSegs = []
              then none
              else some (mergeLoop overlap_seconds 0 ⟨[], [], 0⟩ (a :: b :: cs)).mergedSegs
            word_count :=
              (pySplit (pyJoin (mergeLoop overlap_seconds 0 ⟨[], [], 0⟩ (a :: b :: cs)).mergedText)).length } := by
      simpa [merge_transcriptions] using hout.symm
    rw [hform]
    simp only [mergedSegments]
    split
    · simp [segsMono]
    · simpa using hinv.1

/-- Witness for the amended C2 at a concrete two-chunk input. -/
theorem merge_segments_monotone_witness :
    ∃ out,
      merge_transcriptions 5
        [{ text := "one", segments := some [⟨0, 1⟩], duration := some 1,
           provider := none, model := none, language := none, word_count := none },
         { text := "two", segments := some [⟨0, 2⟩], duration := some 2,
           provider := none, model := none, language := none, word_count := none }]
        = .ok out ∧
      segsMono (mergedSegments out) := by
  have hwf : ∀ c ∈
      ([{ text := "one", segments := some [⟨0, 1⟩], duration := some 1,
          provider := none, model := none, language := none, word_count := none },
        { text := "two", segments := some [⟨0, 2⟩], duration := some 2,
          provider := none, model := none, language := none, word_count := none }] : List Chunk),
      chunkSegsOKNonneg c := by
    intro c hc
    simp only [List.mem_cons, List.not_mem_nil, or_false] at hc
    rcases hc with rfl | rfl
    · exact ⟨1, rfl, by norm_num, by decide, by decide⟩
    · exact ⟨2, rfl, by norm_num, by decide, by decide⟩
  exact ⟨_, rfl, merge_segments_monotone 5 _ hwf _ rfl⟩

/-- Counterexample to C2 as stated: a segment-free middle chunk with a
negative `duration` satisfies the claim's hypotheses vacuously, yet it
drags the running offset below the previous chunk's timestamps, so the
merged segment list is not monotone. -/
theorem merge_segments_monotone_counterexample :
    (∀ c ∈ ([{ text := "", segments := some [⟨0, 1⟩], duration := some 1,
               provider := none, model := none, language := none, word_count := none },
             { text := "", segments := none, duration := some (-5),
               provider := none, model := none, language := none, word_count := none },
             { text := "", segments := some [⟨0, 1⟩], duration := some 1,
               provider := none, model := none, language := none, word_count := none }] : List Chunk),
       chunkSegsOK c) ∧
    ∃ out,
      merge_transcriptions 5
        [{ text := "", segments := some [⟨0, 1⟩], duration := some 1,
           provider := none, model := none, language := none, word_count := none },
         { text := "", segments := none, duration := some (-5),
           provider := none, model := none, language := none, word_count := none },
         { text := "", segments := some [⟨0, 1⟩], duration := some 1,
           provider := none, model := none, language := none, word_count := none }]
        = .ok out ∧
      ¬ segsMono (mergedSegments out) := by
  constructor
  · intro c hc
    simp only [List.mem_cons, List.not_mem_nil, or_false] at hc
    rcases hc with rfl | rfl | rfl
    · exact ⟨1, rfl, by decide, by decide⟩
    · exact ⟨-5, rfl, by decide, by decide⟩
    · exact ⟨1, rfl, by decide, by decide⟩
  · refine ⟨_, rfl, ?_⟩
    have hloop :
        mergeLoop 5 0 ⟨[], [], 0⟩
          [{ text := "", segments := some [⟨0, 1⟩], duration := some 1,
             provider := none, model := none, language := none, word_count := none },
           { text := "", segments := none, duration := some (-5),
             provider := none, model := none, language := none, word_count := none },
           { text := "", segments := some [⟨0, 1⟩], duration := some 1,
             provider := none, model := none, language := none, word_count := none }]
          = ⟨["", "", ""], [⟨0, 1⟩, ⟨-4, -3⟩], -3⟩ := by
      norm_num [mergeLoop, mergeBody, dedupText, offsetSegs, pySplit, splitWsAux]
    rw [mergedSegments, hloop]
    decide

/-- C8: for every multi-chunk merge the `word_count` of the merged result
is the number of whitespace-separated words of the final merged text
(line 272 of `audio_utils.py`), and it is not the sum of the per-chunk
word counts: there is a two-chunk input whose chunks carry their true
word counts while the merged `word_count` differs from their sum (the
overlap deduplication drops words). -/
theorem merge_word_count_recomputed :
    (∀ (overlap_seconds : ℤ) (a b : Chunk) (cs : List Chunk),
      ∃ r : MergedResult,
        merge_transcriptions overlap_seconds (a :: b :: cs) = .ok (.inr r) ∧
        r.word_count = (pySplit r.text).length) ∧
    (∃ a b : Chunk,
      a.word_count = some (pySplit a.text).length ∧
      b.word_count = some (pySplit b.text).length ∧
      ∃ r : MergedResult,
        merge_transcriptions 5 [a, b] = .ok (.inr r) ∧
        r.word_count ≠ a.word_count.getD 0 + b.word_count.getD 0) := by
  constructor
  · intro overlap_seconds a b cs
    exact ⟨_, rfl, rfl⟩
  · refine ⟨{ text := "a b c d e", segments := none, duration := some 10,
              provider := some "groq", model := none, language := none,
              word_count := some 5 },
            { text := "a b c d e f g h i j k", segments := none,
              duration := some 10, provider := some "groq", model := none,
              language := none, word_count := some 11 },
            by decide, by decide, ?_⟩
    exact ⟨_, rfl, by decide⟩

/-- C4: with a configured limit `N ≥ 1` and chronologically recorded
request times, `_check_rate_limit` raises exactly when at least `N`
recorded times fall within the last `W` seconds, with a wait time of `W`
minus the age of the oldest in-window request; otherwise it returns
silently. -/
theorem check_rate_limit_spec (N : ℕ) (W now : ℚ) (times : List ℚ)
    (hN : 1 ≤ N) (hsorted : times.Pairwise (· ≤ ·)) :
    (N ≤ (times.filter (fun t => now - W < t)).length →
      ∃ t0, (times.filter (fun t => now - W < t)).head? = some t0 ∧
        (∀ t ∈ times.filter (fun t => now - W < t), t0 ≤ t) ∧
        (check_rate_limit N W now times).2 = some (W - (now - t0))) ∧
    ((times.filter (fun t => now - W < t)).length < N →
      (check_rate_limit N W now times).2 = none) := by
  have hN0 : ¬ N = 0 := by omega
  constructor
  · intro hlen
    cases hf : times.filter (fun t => now - W < t) with
    | nil => rw [hf] at hlen; simp at hlen; omega
    | cons a l =>
      refine ⟨a, rfl, ?_, ?_⟩
      · have hp := hsorted.filter (fun t => decide (now - W < t))
        rw [hf] at hp
        intro t ht
        rcases List.mem_cons.mp ht with rfl | htl
        · exact le_refl _
        · exact (List.pairwise_cons.mp hp).1 t htl
      · rw [hf] at hlen
        simp only [check_rate_limit, hN0, if_false, hf, if_pos hlen]
        simp
  · intro hlen
    simp only [check_rate_limit, hN0, if_false]
    rw [if_neg (by omega)]

/-- Witness for C4: one recorded request, limit 1, window 10: the second
request at time 10 is rejected with a 5-second wait. -/
theorem check_rate_limit_witness :
    ∃ t0, ([(5 : ℚ)].filter (fun t => (10 : ℚ) - 10 < t)).head? = some t0 ∧
      (∀ t ∈ [(5 : ℚ)].filter (fun t => (10 : ℚ) - 10 < t), t0 ≤ t) ∧
      (check_rate_limit 1 10 10 [5]).2 = some (10 - (10 - t0)) :=
  (check_rate_limit_spec 1 10 10 [5] (by norm_num) (by simp)).1
    (by norm_num [List.filter])

/-- C5: `prepare_file_for_transcription` returns the file as-is when it
fits the size ceiling; otherwise it compresses first when the bitrate is
above 64 kbps, keeping the compressed file alone when it now fits, and
falls back to chunking (of the compressed file, or directly of the
original when the bitrate is at most 64 kbps) with `needs_merging` set;
the chunking call uses the 600-second default duration and 5-second
default overlap. -/
theorem prepare_decision (maxMb : ℚ) (info : AudioInfo) (compMb : ℚ) :
    (info.size_mb ≤ maxMb →
      prepare_file_for_transcription maxMb info compMb = .asIs ∧
      needs_merging (prepare_file_for_transcription maxMb info compMb) = false) ∧
    (maxMb < info.size_mb → 64000 < info.bitrate → compMb ≤ maxMb →
      prepare_file_for_transcription maxMb info compMb = .compressedOnly ∧
      needs_merging (prepare_file_for_transcription maxMb info compMb) = false) ∧
    (maxMb < info.size_mb → 64000 < info.bitrate → maxMb < compMb →
      prepare_file_for_transcription maxMb info compMb = .chunkCompressed ∧
      needs_merging (prepare_file_for_transcription maxMb info compMb) = true) ∧
    (maxMb < info.size_mb → info.bitrate ≤ 64000 →
      prepare_file_for_transcription maxMb info compMb = .chunkOriginal ∧
      needs_merging (prepare_file_for_transcription maxMb info compMb) = true) ∧
    resolved_chunk_duration none = 600 ∧
    split_overlap_seconds_default = 5 := by
  refine ⟨?_, ?_, ?_, ?_, rfl, rfl⟩
  · intro h1
    simp [prepare_file_for_transcription, h1, needs_merging]
  · intro h1 h2 h3
    simp [prepare_file_for_transcription, not_le.mpr h1, h2, h3, needs_merging]
  · intro h1 h2 h3
    simp [prepare_file_for_transcription, not_le.mpr h1, h2, not_le.mpr h3,
      needs_merging]
  · intro h1 h2
    simp [prepare_file_for_transcription, not_le.mpr h1, not_lt.mpr h2,
      needs_merging]

/-- Witness for C5: a 30 MB file at 128 kbps whose compression still
leaves 28 MB against a 25 MB ceiling gets chunked with merging needed. -/
theorem prepare_decision_witness :
    prepare_file_for_transcription 25 ⟨128000, 30⟩ 28 = .chunkCompressed ∧
    needs_merging (prepare_file_for_transcription 25 ⟨128000, 30⟩ 28) = true :=
  (prepare_decision 25 ⟨128000, 30⟩ 28).2.2.1 (by norm_num) (by norm_num)
    (by norm_num)

lemma chunkStep_reaches (lenMs cMs oMs : ℤ) (h : oMs < cMs) :
    ∀ (k : ℕ) (s : ℤ), lenMs - s ≤ k →
      ∃ n : ℕ, lenMs ≤ (chunkStep lenMs cMs oMs)^[n] s
  | 0, s, hk => ⟨0, by simp only [Function.iterate_zero_apply]; omega⟩
  | k + 1, s, hk => by
    by_cases hs : lenMs ≤ s
    · exact ⟨0, by simpa using hs⟩
    · have hcase : lenMs - chunkStep lenMs cMs oMs s ≤ k ∨
          lenMs ≤ chunkStep lenMs cMs oMs s := by
        simp only [chunkStep]
        split <;> omega
      rcases hcase with hlt | hge
      · obtain ⟨n, hn⟩ := chunkStep_reaches lenMs cMs oMs h k
          (chunkStep lenMs cMs oMs s) hlt
        exact ⟨n + 1, by rwa [Function.iterate_succ_apply]⟩
      · exact ⟨1, by simpa using hge⟩

/-- C9: with `overlap_seconds < chunk_duration_seconds` each loop
iteration advances `start` by at least `chunk_duration - overlap`
(capped at the audio length) and the chunking loop reaches
`start ≥ len(audio)` after finitely many iterations; the precondition is
necessary: with `chunk_duration_seconds ≤ overlap_seconds` (positive) and
audio longer than one chunk, `start` never passes the audio's end. -/
theorem split_loop_termination (lenMs chunk_duration_seconds overlap_seconds : ℤ) :
    (overlap_seconds < chunk_duration_seconds →
      (∀ s, s < lenMs →
        min (s + (chunk_duration_seconds * 1000 - overlap_seconds * 1000)) lenMs
          ≤ chunkStep lenMs (chunk_duration_seconds * 1000)
              (overlap_seconds * 1000) s) ∧
      ∃ n : ℕ, lenMs ≤
        (chunkStep lenMs (chunk_duration_seconds * 1000)
          (overlap_seconds * 1000))^[n] 0) ∧
    (chunk_duration_seconds ≤ overlap_seconds → 0 < chunk_duration_seconds →
      chunk_duration_seconds * 1000 < lenMs →
      ∀ n : ℕ,
        (chunkStep lenMs (chunk_duration_seconds * 1000)
          (overlap_seconds * 1000))^[n] 0 < lenMs) := by
  constructor
  · intro hlt
    have hms : overlap_seconds * 1000 < chunk_duration_seconds * 1000 :=
      mul_lt_mul_of_pos_right hlt (by norm_num)
    constructor
    · intro s hs
      simp only [chunkStep]
      split <;> omega
    · exact chunkStep_reaches lenMs _ _ hms lenMs.toNat 0
        (by simp [Int.self_le_toNat])
  · intro h1 h2 h3 n
    have hco : chunk_duration_seconds * 1000 ≤ overlap_seconds * 1000 :=
      mul_le_mul_of_nonneg_right h1 (by norm_num)
    have h0c : 0 < chunk_duration_seconds * 1000 := by positivity
    have hinv : ∀ m : ℕ,
        (chunkStep lenMs (chunk_duration_seconds * 1000)
          (overlap_seconds * 1000))^[m] 0 ≤ 0 := by
      intro m
      induction m with
      | zero => simp
      | succ k ih =>
        rw [Function.iterate_succ_apply']
        simp only [chunkStep]
        split <;> omega
    have := hinv n
    omega

/-- Witness for C9: 2.5 seconds of audio, 1-second chunks, no overlap. -/
theorem split_loop_termination_witness :
    ∃ n : ℕ, (2500 : ℤ) ≤ (chunkStep 2500 (1 * 1000) (0 * 1000))^[n] 0 :=
  ((split_loop_termination 2500 1 0).1 (by norm_num)).2

/-- C3: when the try block with the primary (Groq) provider fails and the
OpenAI fallback is configured, `transcribe` retries exactly once with the
fallback: the attempted providers are `[groq, openai]`, the caller
observes the fallback attempt's own result (its error if it also fails),
and no input ever leads to more than two attempts. -/
theorem transcribe_fallback_once {R : Type} (env : TranscribeEnv R) (b : Bool)
    (e : String)
    (hval : validate_file env.max_file_size_mb env.file = .ok b)
    (hprim : env.primary_provider = .groq)
    (hgroq : TranscriptionProvider.groq ∈ env.providers)
    (hopenai : TranscriptionProvider.openai ∈ env.providers)
    (hfail : env.body .groq = .error e) :
    (transcribe env none).1 = [.groq, .openai] ∧
    (transcribe env none).2 =
      (match env.body .openai with
       | .ok r => .ok r
       | .error e2 => .raised e2) ∧
    ∀ pa, ((transcribe env pa).1).length ≤ 2 := by
  have hopen : transcribe env (some .openai) =
      ([.openai],
        match env.body .openai with
        | .ok r => .ok r
        | .error e2 => .raised e2) := by
    rw [transcribe]
    cases hB : env.body TranscriptionProvider.openai <;>
      simp [hval, hopenai, hB]
  have hmain : transcribe env none =
      (.groq :: (transcribe env (some .openai)).1,
       (transcribe env (some .openai)).2) := by
    rw [transcribe]
    simp [hval, hprim, hgroq, hopenai, hfail]
  refine ⟨?_, ?_, ?_⟩
  · rw [hmain, hopen]
  · rw [hmain, hopen]
  · intro pa
    rw [transcribe]
    simp only [hval]
    by_cases hmem : pa.getD env.primary_provider ∈ env.providers
    · simp only [hmem, if_true]
      cases hB : env.body (pa.getD env.primary_provider) with
      | ok r => simp [hB]
      | error e2 =>
        simp only [hB]
        split
        · rw [hopen]; simp
        · simp
    · simp only [hmem, if_false]
      split
      · rw [hopen]; simp
      · simp

/-- Witness for C3 at a concrete environment whose try body always
fails. -/
theorem transcribe_fallback_once_witness :
    (transcribe (R := Unit)
      ⟨⟨"a.mp3", true, ".mp3", 1⟩, 25, [.groq, .openai], .groq,
        fun _ => .error "boom"⟩ none).1 = [.groq, .openai] ∧
    (transcribe (R := Unit)
      ⟨⟨"a.mp3", true, ".mp3", 1⟩, 25, [.groq, .openai], .groq,
        fun _ => .error "boom"⟩ none).2 = .raised "boom" := by
  have h := transcribe_fallback_once (R := Unit)
    ⟨⟨"a.mp3", true, ".mp3", 1⟩, 25, [.groq, .openai], .groq,
      fun _ => .error "boom"⟩ true "boom"
    rfl rfl (by decide) (by decide) rfl
  exact ⟨h.1, h.2.1⟩

/-- C10: when an exception is raised before `selected_provider` is
assigned (here: `validate_file` raising, e.g. for a missing file or an
unsupported extension), the handler of line 154 reads the unassigned
local, so the caller observes an `UnboundLocalError` for
`selected_provider` instead of the original validation error. -/
theorem transcribe_unbound_local {R : Type} (env : TranscribeEnv R)
    (pa : Option TranscriptionProvider) (msg : String)
    (hval : validate_file env.max_file_size_mb env.file = .error msg) :
    transcribe env pa = ([], .unboundLocal "selected_provider") ∧
    (transcribe env pa).2 ≠ .raised msg := by
  have h : transcribe env pa = ([], .unboundLocal "selected_provider") := by
    rw [transcribe]
    simp [hval]
  exact ⟨h, by rw [h]; simp⟩

/-- Witness for C10: a missing file makes `validate_file` raise, and the
caller of `transcribe` observes the `UnboundLocalError`. -/
theorem transcribe_unbound_local_witness :
    transcribe (R := Unit)
      ⟨⟨"missing.mp3", false, ".mp3", 1⟩, 25, [.groq], .groq, fun _ => .ok ()⟩
      none = ([], .unboundLocal "selected_provider") ∧
    (transcribe (R := Unit)
      ⟨⟨"missing.mp3", false, ".mp3", 1⟩, 25, [.groq], .groq, fun _ => .ok ()⟩
      none).2 ≠ .raised "File not found: missing.mp3" :=
  transcribe_unbound_local _ none "File not found: missing.mp3" rfl

/-- Counterexample to C7 as stated: when the whole flow succeeds up to
the projects-table completion update (background_tasks.py 222-226) and
that one call raises, the handler still writes `failed` to the session,
producing the write sequence uploaded, processing, completed, failed —
whose last step `completed → failed` is not an allowed transition. -/
theorem session_status_transitions_counterexample :
    ¬ List.Chain' allowedTransition
        (sessionTrajectory
          { sessionQuery := .ok true, processingUpdateOk := true,
            projectProcessingUpdateOk := true, transcribeOutcome := .ok (),
            insertOutcome := .ok true, completedUpdateOk := true,
            projectCompletedUpdateOk := false, handlerRequery := .ok true,
            failedUpdateOk := true }
          false false) := by
  simp [sessionTrajectory, process_anonymous_transcription_writes,
    handlerWrites, claim_anonymous_session, create_session_record_status,
    allowedTransition, List.chain'_cons]

/-- C7 (amended): provided the session select does not raise, the
handler's re-select does not find a session the original select could
not, and the session `processing` update and the project completion
update do not themselves raise, every execution of the
anonymous-transcription flow (creation `uploaded`, background
processing — where the transcription, the transcription insert and the
remaining update calls may still fail — then an optional claim) writes
session statuses only along `uploaded → processing → {completed, failed}`
and `completed → claimed`; the claim step writes `claimed` only from
`completed`. -/
theorem session_status_transitions (o : SupabaseOracle) (found : Bool)
    (expired alreadyClaimed : Bool)
    (hq : o.sessionQuery = .ok found)
    (hrq : found = false → o.handlerRequery ≠ .ok true)
    (hu1 : o.processingUpdateOk = true)
    (hu4 : o.projectCompletedUpdateOk = true) :
    List.Chain' allowedTransition (sessionTrajectory o expired alreadyClaimed) ∧
    (∀ s e a, SessionStatus.claimed ∈ claim_anonymous_session s e a →
      s = .completed) := by
  constructor
  · obtain ⟨q, pu, ppu, t, ins, cu, pcu, rq, fu⟩ := o
    simp only at hq hrq hu1 hu4
    subst hq hu1 hu4
    cases found with
    | false =>
      have hrq2 : rq ≠ .ok true := hrq rfl
      rcases rq with e | b
      · simp [sessionTrajectory, process_anonymous_transcription_writes,
          handlerWrites, claim_anonymous_session,
          create_session_record_status, allowedTransition, List.chain'_cons]
      · cases b
        · simp [sessionTrajectory, process_anonymous_transcription_writes,
            handlerWrites, claim_anonymous_session,
            create_session_record_status, allowedTransition,
            List.chain'_cons]
        · exact absurd rfl hrq2
    | true =>
      cases ppu with
      | false =>
        cases fu <;> cases expired <;> cases alreadyClaimed <;>
          simp [sessionTrajectory, process_anonymous_transcription_writes,
            handlerWrites, claim_anonymous_session,
            create_session_record_status, allowedTransition,
            List.chain'_cons]
      | true =>
        rcases t with e | u
        · cases fu <;> cases expired <;> cases alreadyClaimed <;>
            simp [sessionTrajectory, process_anonymous_transcription_writes,
              handlerWrites, claim_anonymous_session,
              create_session_record_status, allowedTransition,
              List.chain'_cons]
        · rcases ins with e2 | b2
          · cases fu <;> cases expired <;> cases alreadyClaimed <;>
              simp [sessionTrajectory,
                process_anonymous_transcription_writes, handlerWrites,
                claim_anonymous_session, create_session_record_status,
                allowedTransition, List.chain'_cons]
          · cases b2 <;> cases cu <;> cases fu <;> cases expired <;>
              cases alreadyClaimed <;>
              simp [sessionTrajectory,
                process_anonymous_transcription_writes, handlerWrites,
                claim_anonymous_session, create_session_record_status,
                allowedTransition, List.chain'_cons]
  · intro s e a h
    cases s <;> first | rfl | simp [claim_anonymous_session] at h

/-- Witness for the amended C7: a fully successful run followed by a
claim of the completed session. -/
theorem session_status_transitions_witness :
    List.Chain' allowedTransition
      (sessionTrajectory
        { sessionQuery := .ok true, processingUpdateOk := true,
          projectProcessingUpdateOk := true, transcribeOutcome := .ok (),
          insertOutcome := .ok true, completedUpdateOk := true,
          projectCompletedUpdateOk := true, handlerRequery := .ok false,
          failedUpdateOk := true }
        false false) ∧
    (∀ s e a, SessionStatus.claimed ∈ claim_anonymous_session s e a →
      s = .completed) :=
  session_status_transitions
    { sessionQuery := .ok true, processingUpdateOk := true,
      projectProcessingUpdateOk := true, transcribeOutcome := .ok (),
      insertOutcome := .ok true, completedUpdateOk := true,
      projectCompletedUpdateOk := true, handlerRequery := .ok false,
      failedUpdateOk := true }
    true false false rfl (by simp) rfl rfl

end Repostr
